import Mathlib

/-!
Shallow embedding of the wallet registry in src/app/page.tsx.

The component keeps its whole state in React useState hooks; we embed that
state as a structure and each handler as a pure state transformer.  The
external cryptographic SDKs the component calls (bip39, ed25519-hd-key,
tweetnacl, solana web3, ethers) are, per the design document, black-box
deterministic primitives; we model them as a structure of pure functions
returning Except, so that a thrown exception is an error value and the
try/catch of createWallet is an explicit match.
-/

/-- Error taxonomy for derivation failures (design document section 7). -/
inductive CError where
  | invalidMnemonic
  | derivationError
  | invalidKeyMaterial
deriving DecidableEq

/-- The Wallet record, src/app/page.tsx lines 10-17.  The optional balance
fields start absent and are only written by the balance fetch. -/
structure Wallet where
  id : Nat
  solanaAddress : String
  ethereumAddress : String
  privateKey : String
  solanaBalance : Option String := none
  ethereumBalance : Option String := none
deriving DecidableEq

/-- Lowercase hexadecimal digit, as Buffer.toString with the hex encoding
produces: 0-9 then a-f. -/
def hexDigit (n : Nat) : Char :=
  if n < 10 then Char.ofNat (48 + n) else Char.ofNat (87 + n)

/-- Character list of the hex encoding: two digits per byte, high nibble
first. -/
def bytesToHexAux : List Nat → List Char
  | [] => []
  | b :: bs => hexDigit (b / 16) :: hexDigit (b % 16) :: bytesToHexAux bs

/-- Buffer.from(bytes).toString with the hex encoding (lines 47, 50, 54-55). -/
def bytesToHex (bytes : List Nat) : String :=
  String.mk (bytesToHexAux bytes)

/-- The external cryptographic primitives imported at lines 4-8, treated as
black-box pure functions (design document section 6).  Byte buffers are lists
of byte values; each primitive may fail, modelling a thrown exception. -/
structure Crypto where
  mnemonicToSeedSync : String → Except CError (List Nat)
  derivePath : String → String → Except CError (List Nat)
  naclSignKeyPairFromSeed : List Nat → Except CError (List Nat)
  keypairFromSecretKeyToBase58 : List Nat → Except CError String
  ethersWalletAddress : String → Except CError String

/-- The Solana derivation path template literal of line 46. -/
def solanaPath (walletIndex : Nat) : String :=
  "m/44'/501'/" ++ Nat.repr walletIndex ++ "'/0'"

/-- The Ethereum derivation path template literal of line 53. -/
def ethereumPath (walletIndex : Nat) : String :=
  "m/44'/60'/" ++ Nat.repr walletIndex ++ "'/0'"

/-- Modelled from the spec: the standardized path string of the design
document section 3, of the form m slash 44 hardened, coin type hardened,
index hardened, 0 hardened; written here for comparison with the strings the
source builds. -/
def hdPathSpec (coinType index : Nat) : String :=
  "m/44'/" ++ Nat.repr coinType ++ "'/" ++ Nat.repr index ++ "'/0'"

/-- The try-block body of createWallet (lines 42-63) for a given mnemonic and
wallet index: seed from the mnemonic, Solana key material at the Solana path,
keypair and base58 address, hex private key of the derived seed material,
Ethereum key material at the Ethereum path, ethers address from its hex; the
first failing step aborts the whole block, as a thrown exception would. -/
def deriveWallet (c : Crypto) (mnemonicToUse : String) (walletIndex : Nat) :
    Except CError Wallet :=
  match c.mnemonicToSeedSync mnemonicToUse with
  | Except.error e => Except.error e
  | Except.ok seed =>
    match c.derivePath (solanaPath walletIndex) (bytesToHex seed) with
    | Except.error e => Except.error e
    | Except.ok solanaDerivedSeed =>
      match c.naclSignKeyPairFromSeed solanaDerivedSeed with
      | Except.error e => Except.error e
      | Except.ok solanaSecret =>
        match c.keypairFromSecretKeyToBase58 solanaSecret with
        | Except.error e => Except.error e
        | Except.ok solanaAddress =>
          match c.derivePath (ethereumPath walletIndex) (bytesToHex seed) with
          | Except.error e => Except.error e
          | Except.ok ethereumDerivedSeed =>
            match c.ethersWalletAddress (bytesToHex ethereumDerivedSeed) with
            | Except.error e => Except.error e
            | Except.ok ethereumAddress =>
              Except.ok { id := walletIndex + 1,
                          solanaAddress := solanaAddress,
                          ethereumAddress := ethereumAddress,
                          privateKey := bytesToHex solanaDerivedSeed,
                          solanaBalance := none,
                          ethereumBalance := none }

/-- The Solana-chain derived key material for a mnemonic and index: the seed
of line 42 fed to derivePath at the Solana path (lines 46-47). -/
def solanaKeyMaterial (c : Crypto) (m : String) (walletIndex : Nat) :
    Except CError (List Nat) :=
  match c.mnemonicToSeedSync m with
  | Except.error e => Except.error e
  | Except.ok seed => c.derivePath (solanaPath walletIndex) (bytesToHex seed)

/-- The component state: the useState hooks of lines 20-26.  The keyed
objects showPrivateKey and loadingBalances are association lists. -/
structure HomeState where
  mnemonic : String
  inputMnemonic : String
  wallets : List Wallet
  isDark : Bool
  showPrivateKey : List (Nat × Bool)
  showMnemonic : Bool
  loadingBalances : List (Nat × Bool)
deriving DecidableEq

/-- The initial state: every useState default of lines 20-26. -/
def initState : HomeState :=
  { mnemonic := "", inputMnemonic := "", wallets := [], isDark := true,
    showPrivateKey := [], showMnemonic := false, loadingBalances := [] }

/-- Line 36: inputMnemonic or-else mnemonic; the or of two strings takes the
first when it is non-empty. -/
def mnemonicToUse (s : HomeState) : String :=
  if s.inputMnemonic = "" then s.mnemonic else s.inputMnemonic

/-- createWallet, lines 35-70: return unchanged when no mnemonic is bound
(lines 37-39); otherwise run the try block at index wallets.length, append
the new wallet and rebind the mnemonic on success (lines 65-66), and swallow
any error leaving the state unchanged (lines 67-69). -/
def createWallet (c : Crypto) (s : HomeState) : HomeState :=
  if mnemonicToUse s = "" then s
  else
    match deriveWallet c (mnemonicToUse s) s.wallets.length with
    | Except.ok w =>
        { s with wallets := s.wallets ++ [w], mnemonic := mnemonicToUse s }
    | Except.error _ => s

/-- generateSecretPhrase, lines 28-33, with the externally generated mnemonic
passed in as an argument. -/
def generateSecretPhrase (newMnemonic : String) (s : HomeState) : HomeState :=
  { s with mnemonic := newMnemonic, inputMnemonic := newMnemonic,
           wallets := [] }

/-- clearWallets, lines 72-78: empty the collection, unbind both mnemonic
fields, reset the two show flags.  The loading flags and theme are not
touched, exactly as in the source. -/
def clearWallets (s : HomeState) : HomeState :=
  { s with wallets := [], mnemonic := "", inputMnemonic := "",
           showMnemonic := false, showPrivateKey := [] }

/-- A registry freshly started with mnemonic M: M is bound (either generated
at lines 28-33 or typed into the input at line 209) and no wallet has been
derived yet. -/
def freshlyStarted (M : String) (s : HomeState) : Prop :=
  mnemonicToUse s = M ∧ s.wallets = []

/-- The setWallets functional updater inside fetchWalletBalances, lines
163-167: map over whatever the collection is when the fetch resolves,
writing the two fetched balance strings into the wallet whose id matches and
returning every other wallet untouched. -/
def attachBalances (walletId : Nat) (ethBalance solBalance : String)
    (ws : List Wallet) : List Wallet :=
  ws.map fun w =>
    if w.id = walletId then
      { w with ethereumBalance := some ethBalance,
               solanaBalance := some solBalance }
    else w

/-- A concrete instantiation of the external primitives in which every call
succeeds, used to evaluate the registry on concrete inputs. -/
def okCrypto : Crypto :=
  { mnemonicToSeedSync := fun _ => Except.ok [0, 1],
    derivePath := fun _ _ => Except.ok [2],
    naclSignKeyPairFromSeed := fun _ => Except.ok [3],
    keypairFromSecretKeyToBase58 := fun _ => Except.ok "sol",
    ethersWalletAddress := fun _ => Except.ok "0xeth" }

/-- A twelve-word phrase whose last word makes the checksum invalid. -/
def badMnemonic : String :=
  "abandon abandon abandon abandon abandon abandon abandon abandon abandon abandon abandon abandon"

/-- Modelled from the spec: the trusted external seed primitive of design
document section 6 fails with InvalidMnemonicError when the checksum of the
mnemonic does not validate; this instance fails exactly on badMnemonic and
succeeds elsewhere, the other primitives always succeed. -/
def badCrypto : Crypto :=
  { mnemonicToSeedSync := fun m =>
      if m = badMnemonic then Except.error CError.invalidMnemonic
      else Except.ok [0, 1],
    derivePath := fun _ _ => Except.ok [2],
    naclSignKeyPairFromSeed := fun _ => Except.ok [3],
    keypairFromSecretKeyToBase58 := fun _ => Except.ok "sol",
    ethersWalletAddress := fun _ => Except.ok "0xeth" }

/-- A registry freshly started with a one-word mnemonic, for concrete
evaluation. -/
def startedState : HomeState :=
  generateSecretPhrase "m" initState

/-- The wallet okCrypto derives at every index zero request. -/
def sampleWallet : Wallet :=
  { id := 1, solanaAddress := "sol", ethereumAddress := "0xeth",
    privateKey := "02", solanaBalance := none, ethereumBalance := none }

/-! Step lemmas about createWallet. -/

/-- With no mnemonic bound, createWallet is the identity (lines 37-39). -/
lemma createWallet_empty (c : Crypto) (s : HomeState)
    (h0 : mnemonicToUse s = "") : createWallet c s = s := by
  unfold createWallet
  rw [if_pos h0]

/-- When the try block throws, createWallet leaves the state unchanged
(lines 67-69). -/
lemma createWallet_err (c : Crypto) (s : HomeState) (e : CError)
    (h0 : mnemonicToUse s ≠ "")
    (hd : deriveWallet c (mnemonicToUse s) s.wallets.length = Except.error e) :
    createWallet c s = s := by
  unfold createWallet
  rw [if_neg h0, hd]

/-- When the try block succeeds, createWallet appends the new wallet and
rebinds the mnemonic (lines 65-66). -/
lemma createWallet_ok (c : Crypto) (s : HomeState) (w : Wallet)
    (h0 : mnemonicToUse s ≠ "")
    (hd : deriveWallet c (mnemonicToUse s) s.wallets.length = Except.ok w) :
    createWallet c s =
      { s with wallets := s.wallets ++ [w], mnemonic := mnemonicToUse s } := by
  unfold createWallet
  rw [if_neg h0, hd]

/-- createWallet never changes which mnemonic is in use. -/
lemma mnemonicToUse_createWallet (c : Crypto) (s : HomeState) :
    mnemonicToUse (createWallet c s) = mnemonicToUse s := by
  by_cases h0 : mnemonicToUse s = ""
  · rw [createWallet_empty c s h0]
  · cases hd : deriveWallet c (mnemonicToUse s) s.wallets.length with
    | error e => rw [createWallet_err c s e h0 hd]
    | ok w =>
        rw [createWallet_ok c s w h0 hd]
        show (if s.inputMnemonic = "" then mnemonicToUse s
              else s.inputMnemonic) = mnemonicToUse s
        by_cases hi : s.inputMnemonic = ""
        · rw [if_pos hi]
        · rw [if_neg hi]
          unfold mnemonicToUse
          rw [if_neg hi]

/-- Invariant of any run: after any number of createWallet calls on a
registry freshly started with M, the mnemonic in use is still M and every
stored wallet is exactly the value deriveWallet computes at its position. -/
lemma createWallet_invariant (c : Crypto) (M : String) (s : HomeState)
    (h : freshlyStarted M s) (n : Nat) :
    mnemonicToUse ((createWallet c)^[n] s) = M ∧
    ∀ j w, ((createWallet c)^[n] s).wallets.get? j = some w →
      deriveWallet c M j = Except.ok w := by
  induction n with
  | zero =>
      rw [Function.iterate_zero_apply]
      refine ⟨h.1, ?_⟩
      intro j w hj
      rw [h.2] at hj
      simp at hj
  | succ n ih =>
      obtain ⟨hM, hinv⟩ := ih
      rw [Function.iterate_succ_apply']
      constructor
      · rw [mnemonicToUse_createWallet]
        exact hM
      · intro j w hj
        by_cases h0 : mnemonicToUse ((createWallet c)^[n] s) = ""
        · rw [createWallet_empty c _ h0] at hj
          exact hinv j w hj
        · cases hd : deriveWallet c (mnemonicToUse ((createWallet c)^[n] s))
            ((createWallet c)^[n] s).wallets.length with
          | error e =>
              rw [createWallet_err c _ e h0 hd] at hj
              exact hinv j w hj
          | ok w' =>
              rw [createWallet_ok c _ w' h0 hd] at hj
              have hj2 : (((createWallet c)^[n] s).wallets ++ [w']).get? j
                  = some w := hj
              rcases lt_trichotomy j
                  ((createWallet c)^[n] s).wallets.length with hlt | heq | hgt
              · rw [List.get?_append hlt] at hj2
                exact hinv j w hj2
              · subst heq
                rw [List.get?_concat_length] at hj2
                injection hj2 with hww
                rw [hM] at hd
                rw [hd, hww]
              · exfalso
                have hle : (((createWallet c)^[n] s).wallets ++ [w']).length
                    ≤ j := by
                  rw [List.length_append]
                  simp
                  omega
                rw [List.get?_eq_none.2 hle] at hj2
                cases hj2

/-- C1: for every mnemonic M and index i, a wallet found at position i of a
registry freshly started with M, after any number of createWallet calls, is
exactly the value of the pure function deriveWallet at (M, i): with the
external primitives fixed, the addresses and the hex private key at index i
are byte-identical on every run and depend on nothing but M and i. -/
theorem wallet_is_pure_function_of_mnemonic_and_index (c : Crypto)
    (M : String) (s : HomeState) (h : freshlyStarted M s) (n j : Nat)
    (w : Wallet)
    (hw : ((createWallet c)^[n] s).wallets.get? j = some w) :
    deriveWallet c M j = Except.ok w :=
  (createWallet_invariant c M s h n).2 j w hw

/-- Witness for C1: one createWallet call on a freshly started registry, the
stored wallet at index 0 is the deriveWallet value. -/
theorem wallet_is_pure_function_of_mnemonic_and_index_witness :
    deriveWallet okCrypto "m" 0 = Except.ok sampleWallet :=
  wallet_is_pure_function_of_mnemonic_and_index okCrypto "m" startedState
    ⟨rfl, rfl⟩ 1 0 sampleWallet (by decide)

/-- C3 counterexample: on the concrete twelve-word mnemonic with a corrupted
checksum, with the external seed primitive modelled per the design document
as failing with InvalidMnemonicError, createWallet does not surface any
failure: it returns with the state (wallet collection included) unchanged,
indistinguishable from a no-op. -/
theorem invalid_mnemonic_not_surfaced_cex :
    badCrypto.mnemonicToSeedSync badMnemonic
      = Except.error CError.invalidMnemonic ∧
    createWallet badCrypto { initState with inputMnemonic := badMnemonic }
      = { initState with inputMnemonic := badMnemonic } := by
  constructor
  · rfl
  · decide

/-- C3 amended: when the seed primitive fails on the mnemonic in use (as it
does, per the design document contract, on a corrupted checksum), the
failure is caught by the try/catch of lines 67-69: createWallet produces no
keys and silently leaves the whole state unchanged, surfacing nothing to the
caller. -/
theorem createWallet_swallows_seed_error (c : Crypto) (s : HomeState)
    (e : CError)
    (h : c.mnemonicToSeedSync (mnemonicToUse s) = Except.error e) :
    createWallet c s = s := by
  by_cases h0 : mnemonicToUse s = ""
  · exact createWallet_empty c s h0
  · apply createWallet_err c s e h0
    unfold deriveWallet
    rw [h]

/-- Witness for the amended C3 at the concrete corrupted mnemonic. -/
theorem createWallet_swallows_seed_error_witness :
    createWallet badCrypto { initState with inputMnemonic := badMnemonic }
      = { initState with inputMnemonic := badMnemonic } :=
  createWallet_swallows_seed_error badCrypto
    { initState with inputMnemonic := badMnemonic }
    CError.invalidMnemonic (by rfl)

/-- C5: at every wallet index the Solana path is exactly the standardized
hardened path with coin type 501 and the Ethereum path exactly the one with
coin type 60, and the two path strings always differ. -/
theorem derivation_paths_standard_and_distinct (i : Nat) :
    solanaPath i = hdPathSpec 501 i ∧ ethereumPath i = hdPathSpec 60 i ∧
    solanaPath i ≠ ethereumPath i := by
  refine ⟨rfl, rfl, ?_⟩
  intro heq
  have h := congrArg String.length heq
  simp only [solanaPath, ethereumPath, String.length_append] at h
  have e1 : ("m/44'/501'/" : String).length = 11 := rfl
  have e2 : ("m/44'/60'/" : String).length = 10 := rfl
  have e3 : ("'/0'" : String).length = 4 := rfl
  rw [e1, e2, e3] at h
  omega

/-- C6: when neither mnemonic field is bound, createWallet is a no-op: it
returns the state unchanged and surfaces no error. -/
theorem createWallet_noop_when_no_mnemonic (c : Crypto) (s : HomeState)
    (h1 : s.mnemonic = "") (h2 : s.inputMnemonic = "") :
    createWallet c s = s := by
  apply createWallet_empty
  unfold mnemonicToUse
  rw [h1, h2]
  rfl

/-- Witness for C6 at the initial state. -/
theorem createWallet_noop_when_no_mnemonic_witness :
    createWallet okCrypto initState = initState :=
  createWallet_noop_when_no_mnemonic okCrypto initState rfl rfl

/-- C7: after clearWallets both mnemonic fields are empty, the wallet
collection is empty, the two show flags are reset, and a further
createWallet without a new session is a no-op. -/
theorem clearWallets_resets_session (c : Crypto) (s : HomeState) :
    (clearWallets s).mnemonic = "" ∧ (clearWallets s).inputMnemonic = "" ∧
    (clearWallets s).wallets = [] ∧
    (clearWallets s).showMnemonic = false ∧
    (clearWallets s).showPrivateKey = [] ∧
    createWallet c (clearWallets s) = clearWallets s := by
  refine ⟨rfl, rfl, rfl, rfl, rfl, ?_⟩
  apply createWallet_empty
  rfl

/-- A map that fixes every element of a list is the identity on it. -/
lemma map_self_of_fixed {α : Type} (l : List α) (f : α → α)
    (h : ∀ a, a ∈ l → f a = a) : l.map f = l := by
  induction l with
  | nil => rfl
  | cons a t ih =>
      rw [List.map_cons, h a (List.mem_cons_self a t),
          ih (fun x hx => h x (List.mem_cons_of_mem a hx))]

/-- C9: the balance write of fetchWalletBalances updates exactly the wallet
whose id matches, leaving every other position of the collection untouched,
and when no wallet of the current collection carries that id (for instance
after a clear) the write is discarded and the collection unchanged. -/
theorem attachBalances_writes_only_matching_wallet (walletId : Nat)
    (ethB solB : String) (ws : List Wallet) :
    (∀ j w, ws.get? j = some w →
      (attachBalances walletId ethB solB ws).get? j =
        some (if w.id = walletId then
                { w with ethereumBalance := some ethB,
                         solanaBalance := some solB }
              else w)) ∧
    ((∀ w, w ∈ ws → w.id ≠ walletId) →
      attachBalances walletId ethB solB ws = ws) := by
  constructor
  · intro j w hw
    unfold attachBalances
    rw [List.get?_map, hw]
    rfl
  · intro hne
    unfold attachBalances
    apply map_self_of_fixed
    intro w hw
    rw [if_neg (hne w hw)]

/-- Inversion of a successful try block: every intermediate derivation step
succeeded and the wallet is the assembled record of line 58-63. -/
lemma deriveWallet_ok_inv (c : Crypto) (m : String) (i : Nat) (w : Wallet)
    (h : deriveWallet c m i = Except.ok w) :
    ∃ seed sds ss sa eds ea,
      c.mnemonicToSeedSync m = Except.ok seed ∧
      c.derivePath (solanaPath i) (bytesToHex seed) = Except.ok sds ∧
      c.naclSignKeyPairFromSeed sds = Except.ok ss ∧
      c.keypairFromSecretKeyToBase58 ss = Except.ok sa ∧
      c.derivePath (ethereumPath i) (bytesToHex seed) = Except.ok eds ∧
      c.ethersWalletAddress (bytesToHex eds) = Except.ok ea ∧
      w = { id := i + 1, solanaAddress := sa, ethereumAddress := ea,
            privateKey := bytesToHex sds, solanaBalance := none,
            ethereumBalance := none } := by
  unfold deriveWallet at h
  split at h
  · exact Except.noConfusion h
  · rename_i seed heq1
    split at h
    · exact Except.noConfusion h
    · rename_i sds heq2
      split at h
      · exact Except.noConfusion h
      · rename_i ss heq3
        split at h
        · exact Except.noConfusion h
        · rename_i sa heq4
          split at h
          · exact Except.noConfusion h
          · rename_i eds heq5
            split at h
            · exact Except.noConfusion h
            · rename_i ea heq6
              injection h with hw
              exact ⟨seed, sds, ss, sa, eds, ea, heq1, heq2, heq3,
                     heq4, heq5, heq6, hw.symm⟩

/-- A successfully derived wallet carries id equal to its index plus one
(line 59). -/
lemma deriveWallet_id (c : Crypto) (m : String) (i : Nat) (w : Wallet)
    (h : deriveWallet c m i = Except.ok w) : w.id = i + 1 := by
  obtain ⟨seed, sds, ss, sa, eds, ea, _, _, _, _, _, _, hw⟩ :=
    deriveWallet_ok_inv c m i w h
  rw [hw]

/-- Whether the try block succeeds at this mnemonic and index. -/
def isOkW (e : Except CError Wallet) : Bool :=
  match e with
  | Except.ok _ => true
  | Except.error _ => false

/-- Success of the try block as an existential. -/
lemma isOkW_iff (e : Except CError Wallet) :
    isOkW e = true ↔ ∃ w, e = Except.ok w := by
  cases e with
  | error x => simp [isOkW]
  | ok w => simp [isOkW]

/-- Under a bound mnemonic with every step succeeding, n createWallet calls
store exactly n wallets, and earlier collections are prefixes of later
ones. -/
lemma iterate_wallets_length (c : Crypto) (M : String) (s : HomeState)
    (h : freshlyStarted M s) (hM : M ≠ "") (n : Nat)
    (hok : ∀ j, j < n → isOkW (deriveWallet c M j) = true) :
    ((createWallet c)^[n] s).wallets.length = n ∧
    ∀ m, m ≤ n → ((createWallet c)^[m] s).wallets =
      ((createWallet c)^[n] s).wallets.take m := by
  induction n with
  | zero =>
      constructor
      · rw [Function.iterate_zero_apply, h.2]
        rfl
      · intro m hm
        have hm0 : m = 0 := Nat.le_zero.1 hm
        subst hm0
        rw [Function.iterate_zero_apply, h.2]
        rfl
  | succ n ih =>
      have hokn : ∀ j, j < n → isOkW (deriveWallet c M j) = true :=
        fun j hj => hok j (Nat.lt_succ_of_lt hj)
      obtain ⟨hlen, htake⟩ := ih hokn
      have hMn := (createWallet_invariant c M s h n).1
      obtain ⟨w, hw⟩ := (isOkW_iff _).1 (hok n (Nat.lt_succ_self n))
      have h0 : mnemonicToUse ((createWallet c)^[n] s) ≠ "" := by
        rw [hMn]
        exact hM
      have hd : deriveWallet c (mnemonicToUse ((createWallet c)^[n] s))
          ((createWallet c)^[n] s).wallets.length = Except.ok w := by
        rw [hMn, hlen]
        exact hw
      have hwstep : ((createWallet c)^[n + 1] s).wallets =
          ((createWallet c)^[n] s).wallets ++ [w] := by
        rw [Function.iterate_succ_apply', createWallet_ok c _ w h0 hd]
      constructor
      · rw [hwstep, List.length_append, hlen]
        rfl
      · intro m hm
        rcases Nat.lt_or_ge m (n + 1) with hlt | hge
        · have hmn : m ≤ n := Nat.lt_succ_iff.1 hlt
          rw [hwstep,
              List.take_append_of_le_length (le_of_le_of_eq hmn hlen.symm)]
          exact htake m hmn
        · have hmeq : m = n + 1 := Nat.le_antisymm hm hge
          subst hmeq
          rw [hwstep]
          have hl : (((createWallet c)^[n] s).wallets ++ [w]).length
              = n + 1 := by
            rw [List.length_append, hlen]
            rfl
          rw [← hl, List.take_length]

/-- A list whose element at every position j carries id j plus one has image
under id exactly the range from 1 of its length. -/
lemma map_id_eq_range (l : List Wallet)
    (hid : ∀ j w, l.get? j = some w → w.id = j + 1) :
    l.map Wallet.id = List.range' 1 l.length := by
  apply List.ext_get?_iff.2
  intro j
  rw [List.get?_map]
  rcases hj : l.get? j with _ | w
  · have hlen : l.length ≤ j := List.get?_eq_none.1 hj
    rw [List.get?_eq_none.2 (by rw [List.length_range']; exact hlen)]
    rfl
  · have hjlt : j < l.length := by
      by_contra hc
      rw [List.get?_eq_none.2 (Nat.le_of_not_lt hc)] at hj
      cases hj
    rw [List.get?_range' 1 1 hjlt]
    have hidj := hid j w hj
    show some w.id = some (1 + 1 * j)
    apply congrArg some
    omega

/-- C4: after N createWallet calls that all succeed on a registry freshly
started with a non-empty mnemonic, the stored ids are exactly 1..N in call
order, and each call only appended at the end: the collection after m calls
is the length-m prefix of the collection after N calls. -/
theorem wallet_ids_are_one_to_n (c : Crypto) (M : String) (s : HomeState)
    (h : freshlyStarted M s) (hM : M ≠ "") (n : Nat)
    (hok : ∀ j, j < n → isOkW (deriveWallet c M j) = true) :
    ((createWallet c)^[n] s).wallets.map Wallet.id = List.range' 1 n ∧
    ∀ m, m ≤ n → ((createWallet c)^[m] s).wallets =
      ((createWallet c)^[n] s).wallets.take m := by
  obtain ⟨hlen, htake⟩ := iterate_wallets_length c M s h hM n hok
  refine ⟨?_, htake⟩
  have hmap := map_id_eq_range _ (fun j w hw =>
    deriveWallet_id c M j w ((createWallet_invariant c M s h n).2 j w hw))
  rw [hlen] at hmap
  exact hmap

/-- Witness for C4: two successful calls on a freshly started registry give
ids 1, 2 and prefix-stable collections. -/
theorem wallet_ids_are_one_to_n_witness :
    ((createWallet okCrypto)^[2] startedState).wallets.map Wallet.id
      = List.range' 1 2 ∧
    ∀ m, m ≤ 2 → ((createWallet okCrypto)^[m] startedState).wallets =
      ((createWallet okCrypto)^[2] startedState).wallets.take m :=
  wallet_ids_are_one_to_n okCrypto "m" startedState ⟨rfl, rfl⟩
    (by decide) 2 (by decide)

/-- The hex character list is twice the byte count. -/
lemma bytesToHexAux_length (l : List Nat) :
    (bytesToHexAux l).length = 2 * l.length := by
  induction l with
  | nil => rfl
  | cons b bs ih =>
      simp only [bytesToHexAux, List.length_cons, ih]
      omega

/-- The hex string is twice the byte count long. -/
lemma bytesToHex_length (l : List Nat) :
    (bytesToHex l).length = 2 * l.length := by
  show (bytesToHexAux l).length = 2 * l.length
  exact bytesToHexAux_length l

/-- The hex digit map is injective on nibbles. -/
lemma hexDigit_inj : ∀ a, a < 16 → ∀ b, b < 16 →
    hexDigit a = hexDigit b → a = b := by decide

/-- Hex encoding of byte lists is injective. -/
lemma bytesToHexAux_inj (l1 : List Nat) : ∀ l2 : List Nat,
    (∀ b ∈ l1, b < 256) → (∀ b ∈ l2, b < 256) →
    bytesToHexAux l1 = bytesToHexAux l2 → l1 = l2 := by
  induction l1 with
  | nil =>
      intro l2 _ _ h
      cases l2 with
      | nil => rfl
      | cons b bs => simp [bytesToHexAux] at h
  | cons a as ih =>
      intro l2 h1 h2 h
      cases l2 with
      | nil => simp [bytesToHexAux] at h
      | cons b bs =>
          simp only [bytesToHexAux, List.cons.injEq] at h
          obtain ⟨hh, hm, ht⟩ := h
          have ha : a < 256 := h1 a (List.mem_cons_self a as)
          have hb : b < 256 := h2 b (List.mem_cons_self b bs)
          have e1 : a / 16 = b / 16 :=
            hexDigit_inj (a / 16) (by omega) (b / 16) (by omega) hh
          have e2 : a % 16 = b % 16 :=
            hexDigit_inj (a % 16) (by omega) (b % 16) (by omega) hm
          have hab : a = b := by omega
          rw [hab, ih bs (fun x hx => h1 x (List.mem_cons_of_mem a hx))
            (fun x hx => h2 x (List.mem_cons_of_mem b hx)) ht]

/-- Hex strings of distinct bounded byte lists are distinct. -/
lemma bytesToHex_inj (l1 l2 : List Nat) (h1 : ∀ b ∈ l1, b < 256)
    (h2 : ∀ b ∈ l2, b < 256) (h : bytesToHex l1 = bytesToHex l2) :
    l1 = l2 :=
  bytesToHexAux_inj l1 l2 h1 h2 (congrArg String.data h)

/-- The privateKey field of a successfully derived wallet is the hex of the
Solana-chain key material (lines 47, 50, 62). -/
lemma deriveWallet_privateKey (c : Crypto) (m : String) (i : Nat)
    (w : Wallet) (km : List Nat) (h : deriveWallet c m i = Except.ok w)
    (hk : solanaKeyMaterial c m i = Except.ok km) :
    w.privateKey = bytesToHex km := by
  obtain ⟨seed, sds, ss, sa, eds, ea, h1, h2, _, _, _, _, hw⟩ :=
    deriveWallet_ok_inv c m i w h
  unfold solanaKeyMaterial at hk
  split at hk
  · exact Except.noConfusion hk
  · rename_i seed2 heq
    rw [h1] at heq
    injection heq with he
    rw [← he, h2] at hk
    injection hk with hk2
    rw [hw]
    show bytesToHex sds = bytesToHex km
    rw [hk2]

/-- C8: every wallet stored in the registry exposes as privateKey exactly
the hex encoding of the Ed25519-chain derived seed material of its index:
with 32 key-material bytes it is a 64-character hex string, so it is never
the hex of a 64-byte expanded secret key, and it differs from the hex of any
other byte sequence, in particular the secp256k1-chain key material when
that differs. -/
theorem privateKey_is_hex_of_derived_seed (c : Crypto) (M : String)
    (s : HomeState) (h : freshlyStarted M s) (n j : Nat) (w : Wallet)
    (km : List Nat)
    (hw : ((createWallet c)^[n] s).wallets.get? j = some w)
    (hk : solanaKeyMaterial c M j = Except.ok km) :
    w.privateKey = bytesToHex km ∧
    (km.length = 32 → w.privateKey.length = 64) ∧
    (∀ sk : List Nat, km.length = 32 → sk.length = 64 →
      w.privateKey ≠ bytesToHex sk) ∧
    (∀ ekm : List Nat, (∀ b ∈ km, b < 256) → (∀ b ∈ ekm, b < 256) →
      km ≠ ekm → w.privateKey ≠ bytesToHex ekm) := by
  have hd := (createWallet_invariant c M s h n).2 j w hw
  have hpk := deriveWallet_privateKey c M j w km hd hk
  refine ⟨hpk, ?_, ?_, ?_⟩
  · intro h32
    rw [hpk, bytesToHex_length, h32]
  · intro sk h32 h64 heq
    have hlen := congrArg String.length heq
    rw [hpk, bytesToHex_length, bytesToHex_length, h32, h64] at hlen
    omega
  · intro ekm hbk hbe hne heq
    exact hne (bytesToHex_inj km ekm hbk hbe (by rw [← hpk, heq]))

/-- Witness for C8 after one call on a freshly started registry. -/
theorem privateKey_is_hex_of_derived_seed_witness :
    sampleWallet.privateKey = bytesToHex [2] ∧
    (([2] : List Nat).length = 32 → sampleWallet.privateKey.length = 64) ∧
    (∀ sk : List Nat, ([2] : List Nat).length = 32 → sk.length = 64 →
      sampleWallet.privateKey ≠ bytesToHex sk) ∧
    (∀ ekm : List Nat, (∀ b ∈ ([2] : List Nat), b < 256) →
      (∀ b ∈ ekm, b < 256) → ([2] : List Nat) ≠ ekm →
      sampleWallet.privateKey ≠ bytesToHex ekm) :=
  privateKey_is_hex_of_derived_seed okCrypto "m" startedState ⟨rfl, rfl⟩
    1 0 sampleWallet [2] (by decide) (by rfl)
